import Mathlib

/-!
Verification development for the clustering-evaluation module
(`evaluation_metrics_hierarchical_clustering.py`) of the repository.
The timestamping utility of `transform_data.py` is not modelled here:
its observable behavior (the number of `np.arange` timestamps and the
resulting `df.insert` outcome) depends on IEEE-754 float rounding,
which this exact-arithmetic embedding cannot state faithfully.

Modelling conventions:
* data matrices are lists of rows, with rational entries (`Mat`);
* the NaN sentinel used by the source is modelled as `Option.none`;
* Python exceptions are modelled with `Except PyErr`;
* the external library primitives that the source treats as black boxes
  (the constrained clusterer and the three validity scores, plus the
  standardizer) are abstract fields of an `Externals` record, while the
  neighbor-graph builder is modelled concretely from its documented
  contract (k nearest neighbors by Euclidean distance, self excluded,
  failing when the sample count does not exceed the neighbor count).
-/

/-- Rectangular numeric data: a list of rows of rationals. -/
abbrev Mat := List (List ℚ)

/-- Componentwise sum of two rows (numpy row addition). -/
def vecAdd (a b : List ℚ) : List ℚ := List.zipWith (fun x y => x + y) a b

/-- Scalar multiple of a row. -/
def vecScale (c : ℚ) (v : List ℚ) : List ℚ := v.map (fun x => c * x)

/-- Sum of squared componentwise differences between a point and a
centroid: the contribution of one point to
`((cluster_points - centroid) ** 2).sum()`. -/
def sqDiffSum (p c : List ℚ) : ℚ := (List.zipWith (fun x y => (x - y) ^ 2) p c).sum

/-- Mean row of a list of rows, i.e. `cluster_points.mean(axis=0)`.
Undefined (`none`) on an empty list, which models the one failure mode of
`calculate_wcss` that its caller guards with a try/except block. -/
def centroid (pts : Mat) : Option (List ℚ) :=
  match pts with
  | [] => none
  | p :: rest => some (vecScale (((rest.length : ℚ) + 1)⁻¹) (rest.foldl vecAdd p))

/-- Boolean-mask selection `X[labels == label]`: the rows of `X` whose
positionally corresponding label equals `l`.  In the source `X` and
`labels` always have the same length. -/
def clusterPoints (X : Mat) (labels : List ℤ) (l : ℤ) : Mat :=
  (X.zip labels).filterMap (fun pr => if pr.2 = l then some pr.1 else none)

/-- Insert an integer into a sorted list, keeping it sorted. -/
def insertSorted (x : ℤ) : List ℤ → List ℤ
  | [] => [x]
  | y :: ys => if x ≤ y then x :: y :: ys else y :: insertSorted x ys

/-- Insertion sort of a list of integers. -/
def sortedLabels (l : List ℤ) : List ℤ := l.foldr insertSorted []

/-- Model of `np.unique(labels)`: the distinct label values, sorted. -/
def uniqueLabels (l : List ℤ) : List ℤ := (sortedLabels l).dedup

/-- One iteration of the `for label in np.unique(labels)` loop of
`calculate_wcss`: add the within-cluster sum of squares of the cluster of
label `l` to the accumulator; `none` when the centroid is undefined. -/
def clusterAdd (X : Mat) (labels : List ℤ) (acc : ℚ) (l : ℤ) : Option ℚ :=
  match centroid (clusterPoints X labels l) with
  | none => none
  | some c => some (acc + ((clusterPoints X labels l).map (fun p => sqDiffSum p c)).sum)

/-- The accumulation loop of `calculate_wcss` over a list of labels. -/
def wcssLoop (X : Mat) (labels : List ℤ) : List ℤ → ℚ → Option ℚ
  | [], acc => some acc
  | l :: ls, acc =>
    match clusterAdd X labels acc l with
    | none => none
    | some acc2 => wcssLoop X labels ls acc2

/-- Model of `calculate_wcss(X, labels)` from
`evaluation_metrics_hierarchical_clustering.py`: for each distinct label,
the squared distances of the cluster members to the cluster centroid are
summed, and the per-cluster sums are accumulated starting from 0. -/
def calculate_wcss (X : Mat) (labels : List ℤ) : Option ℚ :=
  wcssLoop X labels (uniqueLabels labels) 0

/-- Contribution of one cluster to the WCSS (0 if the cluster is empty;
that case never arises for labels drawn from `uniqueLabels`). -/
def clusterTerm (X : Mat) (labels : List ℤ) (l : ℤ) : ℚ :=
  match centroid (clusterPoints X labels l) with
  | none => 0
  | some c => ((clusterPoints X labels l).map (fun p => sqDiffSum p c)).sum

/-- Python exception values that the model distinguishes. -/
inductive PyErr where
  | insufficientSamples
  | clusterFailure
  | metricFailure
deriving DecidableEq

deriving instance DecidableEq for Except

/-- The external library primitives used by `compute_metrics` that the
source and the spec treat as black boxes: the constrained agglomerative
clusterer (`AgglomerativeClustering(...).fit_predict`, taking the
connectivity graph, the metric and linkage strings, the data and the
requested cluster count), the three validity scores and the standardizer
(`StandardScaler().fit_transform`). -/
structure Externals where
  fit_predict : List (List ℕ) → String → String → Mat → ℕ → Except PyErr (List ℤ)
  silhouette_score : Mat → List ℤ → Except PyErr ℚ
  calinski_harabasz_score : Mat → List ℤ → Except PyErr ℚ
  davies_bouldin_score : Mat → List ℤ → Except PyErr ℚ
  standardize : Mat → Mat

/-- Squared Euclidean distance between rows `i` and `j` of `X`
(squared distances order pairs exactly as Euclidean distances do). -/
def sqdistRows (X : Mat) (i j : ℕ) : ℚ := sqDiffSum (X.getD i []) (X.getD j [])

/-- Strict closeness order of candidate neighbors of sample `i`, with ties
broken by index: `m` precedes `j` among the neighbors of `i`. -/
def closerB (X : Mat) (i m j : ℕ) : Bool :=
  decide (sqdistRows X i m < sqdistRows X i j) ||
    (decide (sqdistRows X i m = sqdistRows X i j) && decide (m < j))

/-- Modelled from the spec: the adjacency produced by the external
`kneighbors_graph(matrix, k, include_self=False)` call, per the spec
contract in section 4.2 — for every sample, its `k` nearest neighbors by
Euclidean distance with self excluded.  `j` is a neighbor of `i` exactly
when fewer than `k` other samples are strictly closer to `i` (index
tie-break). -/
def knnGraph (X : Mat) (k : ℕ) : List (List ℕ) :=
  (List.range X.length).map (fun i =>
    (List.range X.length).filter (fun j =>
      decide (j ≠ i) &&
        decide ((((List.range X.length).filter
          (fun m => decide (m ≠ i) && closerB X i m j)).length) < k)))

/-- Modelled from the spec: `kneighbors_graph(matrix, n_neighbors,
include_self=False)` requires more samples than requested neighbors
(`N > k`, section 4.2) and otherwise fails with the condition the spec
names `InsufficientSamples`. -/
def kneighbors_graph (X : Mat) (n_neighbors : ℕ) : Except PyErr (List (List ℕ)) :=
  if n_neighbors < X.length then Except.ok (knnGraph X n_neighbors)
  else Except.error PyErr.insufficientSamples

/-- Value of a metric computation when caught by a try/except block:
`ok` values pass through, any exception becomes `none` (the NaN
sentinel). -/
def exceptToOption : Except PyErr ℚ → Option ℚ
  | Except.ok v => some v
  | Except.error _ => none

/-- One `try/except` block of the sweep: on success the value is
appended, on failure the NaN sentinel is appended and a diagnostic line
naming the metric and the cluster count is printed. -/
def tryOpt (o : Option ℚ) (name : String) (k : ℕ) : Option ℚ × List (String × ℕ) :=
  match o with
  | some v => (some v, [])
  | none => (none, [(name, k)])

/-- The diagnostics printed for one cluster count `k`, in the order of the
four try/except blocks of the source (WCSS, Davies-Bouldin, Silhouette,
Calinski-Harabasz). -/
def diagsFor (E : Externals) (S : Mat) (labels : List ℤ) (k : ℕ) :
    List (String × ℕ) :=
  (tryOpt (calculate_wcss S labels) "WCSS" k).2 ++
    (tryOpt (exceptToOption (E.davies_bouldin_score S labels)) "Davies-Bouldin" k).2 ++
    (tryOpt (exceptToOption (E.silhouette_score S labels)) "Silhouette" k).2 ++
    (tryOpt (exceptToOption (E.calinski_harabasz_score S labels)) "Calinski-Harabasz" k).2

/-- The four metric entries and the diagnostics produced by one iteration
of the sweep loop for one cluster count. -/
structure KRow where
  wcssE : Option ℚ
  silE : Option ℚ
  chE : Option ℚ
  dbE : Option ℚ
  diags : List (String × ℕ)
deriving DecidableEq

/-- One iteration of the `for i in cluster_number` loop of
`compute_metrics`: run the constrained clusterer (Euclidean metric, Ward
linkage, shared connectivity graph) on the standardized data — this call
is NOT inside a try/except block, so its exceptions propagate — then run
the four metric computations, each inside its own try/except block. -/
def sweepStep (E : Externals) (g : List (List ℕ)) (S : Mat) (k : ℕ) :
    Except PyErr KRow :=
  match E.fit_predict g "euclidean" "ward" S k with
  | Except.error e => Except.error e
  | Except.ok labels =>
    Except.ok
      ⟨(tryOpt (calculate_wcss S labels) "WCSS" k).1,
        (tryOpt (exceptToOption (E.silhouette_score S labels)) "Silhouette" k).1,
        (tryOpt (exceptToOption (E.calinski_harabasz_score S labels)) "Calinski-Harabasz" k).1,
        (tryOpt (exceptToOption (E.davies_bouldin_score S labels)) "Davies-Bouldin" k).1,
        diagsFor E S labels k⟩

/-- The value returned by `compute_metrics`: the four metric sequences of
the source's return tuple, in the source's order, plus the stream of
diagnostic lines printed during the sweep. -/
structure SweepResult where
  wcss : List (Option ℚ)
  silhouette_scores : List (Option ℚ)
  calinski_harabasz_scores : List (Option ℚ)
  davies_bouldin_scores : List (Option ℚ)
  log : List (String × ℕ)
deriving DecidableEq

/-- The sweep loop of `compute_metrics`: each cluster count appends one
entry to each of the four sequences; an uncaught exception aborts the
loop and propagates. -/
def sweepLoop (E : Externals) (g : List (List ℕ)) (S : Mat) :
    List ℕ → Except PyErr SweepResult
  | [] => Except.ok ⟨[], [], [], [], []⟩
  | k :: ks =>
    match sweepStep E g S k with
    | Except.error e => Except.error e
    | Except.ok row =>
      match sweepLoop E g S ks with
      | Except.error e => Except.error e
      | Except.ok rest =>
        Except.ok ⟨row.wcssE :: rest.wcss, row.silE :: rest.silhouette_scores,
          row.chE :: rest.calinski_harabasz_scores,
          row.dbE :: rest.davies_bouldin_scores, row.diags ++ rest.log⟩

/-- Model of `compute_metrics(dataframe, cluster_number)`: build the
connectivity graph once from the raw (unstandardized) input with the
fixed neighbor count 10, standardize the input once, then sweep the
caller-supplied cluster counts in the caller-supplied order. -/
def compute_metrics (E : Externals) (dataframe : Mat) (cluster_number : List ℕ) :
    Except PyErr SweepResult :=
  match kneighbors_graph dataframe 10 with
  | Except.error e => Except.error e
  | Except.ok knn_graph => sweepLoop E knn_graph (E.standardize dataframe) cluster_number

/-- Model of Python `range(a, b)`. -/
def pythonRange (a b : ℕ) : List ℕ := List.range' a (b - a)

/-- `compute_metrics` invoked without an explicit sweep range, which in
the source defaults to `range(2, 10)`. -/
def compute_metricsDefault (E : Externals) (dataframe : Mat) :
    Except PyErr SweepResult :=
  compute_metrics E dataframe (pythonRange 2 10)

/-- Concrete clusterer used to instantiate theorems about the sweep:
sample `i` receives label `i mod k`. -/
def mockFit (g : List (List ℕ)) (m l : String) (S : Mat) (k : ℕ) :
    Except PyErr (List ℤ) :=
  Except.ok ((List.range S.length).map (fun i => ((i % k : ℕ) : ℤ)))

/-- Concrete validity score used to instantiate theorems about the sweep:
defined only when at least two distinct labels are present, as the three
real validity scores are. -/
def mockScore (S : Mat) (labels : List ℤ) : Except PyErr ℚ :=
  if 2 ≤ labels.dedup.length then Except.ok 1 else Except.error PyErr.metricFailure

/-- Concrete externals for instantiating the sweep theorems. -/
def mockExternals : Externals :=
  ⟨mockFit, mockScore, mockScore, mockScore, id⟩

/-- Concrete externals whose clusterer fails at cluster count 3. -/
def failExternals : Externals :=
  ⟨fun g m l S k =>
      if k = 3 then Except.error PyErr.clusterFailure else mockFit g m l S k,
    mockScore, mockScore, mockScore, id⟩

/-- The labels `mockFit` produces on an 11-sample dataset. -/
def mockLab (k : ℕ) : List ℤ := (List.range 11).map (fun i => ((i % k : ℕ) : ℤ))

/-- Concrete 11-sample dataset (one feature), enough samples for the
10-neighbor connectivity graph. -/
def dfBig : Mat := List.replicate 11 [0]

/-- Concrete 5-sample dataset (one feature), fewer samples than the fixed
neighbor count 10. -/
def dfSmall : Mat := List.replicate 5 [0]

theorem mem_insertSorted (x y : ℤ) (l : List ℤ) :
    x ∈ insertSorted y l ↔ x = y ∨ x ∈ l := by
  induction l with
  | nil => simp [insertSorted]
  | cons a t ih =>
    by_cases h : y ≤ a
    · simp [insertSorted, h]
    · simp [insertSorted, h, ih]
      tauto

theorem mem_sortedLabels (x : ℤ) (l : List ℤ) : x ∈ sortedLabels l ↔ x ∈ l := by
  induction l with
  | nil => simp [sortedLabels]
  | cons a t ih =>
    simp only [sortedLabels, List.foldr_cons] at ih ⊢
    rw [mem_insertSorted]
    simp [ih]

theorem mem_uniqueLabels (x : ℤ) (l : List ℤ) : x ∈ uniqueLabels l ↔ x ∈ l := by
  rw [uniqueLabels, List.mem_dedup, mem_sortedLabels]

theorem nodup_uniqueLabels (l : List ℤ) : (uniqueLabels l).Nodup :=
  List.nodup_dedup _

theorem clusterPoints_cons (x : List ℚ) (X : Mat) (a : ℤ) (ls : List ℤ) (l : ℤ) :
    clusterPoints (x :: X) (a :: ls) l =
      if a = l then x :: clusterPoints X ls l else clusterPoints X ls l := by
  by_cases h : a = l <;> simp [clusterPoints, List.filterMap_cons, h]

theorem clusterPoints_subset (X : Mat) (labels : List ℤ) (l : ℤ) (p : List ℚ)
    (hp : p ∈ clusterPoints X labels l) : p ∈ X := by
  rw [clusterPoints] at hp
  obtain ⟨pr, hpr, hif⟩ := List.mem_filterMap.1 hp
  have hpr1 : pr.1 = p := by
    by_cases h : pr.2 = l <;> simp [h] at hif
    exact hif
  exact hpr1 ▸ (List.of_mem_zip hpr).1

theorem clusterPoints_ne_nil (X : Mat) (labels : List ℤ) (l : ℤ)
    (hlen : labels.length ≤ X.length) (hl : l ∈ labels) :
    clusterPoints X labels l ≠ [] := by
  induction labels generalizing X with
  | nil => cases hl
  | cons a ls ih =>
    cases X with
    | nil => simp at hlen
    | cons x Xt =>
      rw [clusterPoints_cons]
      by_cases h : a = l
      · simp [h]
      · have hl2 : l ∈ ls := by
          rcases List.mem_cons.1 hl with h1 | h1
          · exact absurd h1.symm h
          · exact h1
        have hlen2 : ls.length ≤ Xt.length := by simpa using hlen
        simpa [h] using ih Xt hlen2 hl2

theorem centroid_eq_none (pts : Mat) : centroid pts = none ↔ pts = [] := by
  cases pts <;> simp [centroid]

theorem vecAdd_length (a b : List ℚ) (h : b.length = a.length) :
    (vecAdd a b).length = a.length := by
  simp [vecAdd, h]

theorem vecAdd_getD (a b : List ℚ) (h : b.length = a.length) (i : ℕ) :
    (vecAdd a b).getD i 0 = a.getD i 0 + b.getD i 0 := by
  induction a generalizing b i with
  | nil =>
    cases b with
    | nil => simp [vecAdd]
    | cons y ys => simp at h
  | cons x xs ih =>
    cases b with
    | nil => simp at h
    | cons y ys =>
      cases i with
      | zero => simp [vecAdd]
      | succ j =>
        have h2 : ys.length = xs.length := by simpa using h
        simpa [vecAdd] using ih ys h2 j

theorem foldl_vecAdd_length (rest : Mat) (p : List ℚ)
    (h : ∀ r ∈ rest, r.length = p.length) :
    (rest.foldl vecAdd p).length = p.length := by
  induction rest generalizing p with
  | nil => rfl
  | cons r t ih =>
    have hr : r.length = p.length := h r (by simp)
    have hb : (vecAdd p r).length = p.length := vecAdd_length p r hr
    have ht : ∀ x ∈ t, x.length = (vecAdd p r).length := by
      intro x hx
      rw [hb]
      exact h x (by simp [hx])
    simpa [hb] using ih (vecAdd p r) ht

theorem foldl_vecAdd_getD (rest : Mat) (p : List ℚ)
    (h : ∀ r ∈ rest, r.length = p.length) (i : ℕ) :
    (rest.foldl vecAdd p).getD i 0 =
      p.getD i 0 + (rest.map (fun r => r.getD i 0)).sum := by
  induction rest generalizing p with
  | nil => simp
  | cons r t ih =>
    have hr : r.length = p.length := h r (by simp)
    have hb : (vecAdd p r).length = p.length := vecAdd_length p r hr
    have ht : ∀ x ∈ t, x.length = (vecAdd p r).length := by
      intro x hx
      rw [hb]
      exact h x (by simp [hx])
    have := ih (vecAdd p r) ht
    simp only [List.foldl_cons, this, vecAdd_getD p r hr i]
    simp [add_assoc]

theorem vecScale_length (c : ℚ) (v : List ℚ) : (vecScale c v).length = v.length := by
  simp [vecScale]

theorem vecScale_getD (c : ℚ) (v : List ℚ) (i : ℕ) :
    (vecScale c v).getD i 0 = c * v.getD i 0 := by
  induction v generalizing i with
  | nil => simp [vecScale]
  | cons x xs ih =>
    cases i with
    | zero => simp [vecScale]
    | succ j => simpa [vecScale] using ih j

theorem list_eq_of_getD (a b : List ℚ) (hlen : a.length = b.length)
    (h : ∀ i, a.getD i 0 = b.getD i 0) : a = b := by
  induction a generalizing b with
  | nil =>
    cases b with
    | nil => rfl
    | cons y ys => simp at hlen
  | cons x xs ih =>
    cases b with
    | nil => simp at hlen
    | cons y ys =>
      have h0 : x = y := by simpa using h 0
      have ht : xs = ys := by
        apply ih ys (by simpa using hlen)
        intro i
        simpa using h (i + 1)
      rw [h0, ht]

theorem sum_const_list (m : List ℚ) (c : ℚ) (h : ∀ x ∈ m, x = c) :
    m.sum = m.length * c := by
  induction m with
  | nil => simp
  | cons x t ih =>
    have hx : x = c := h x (by simp)
    have ht : t.sum = t.length * c := ih (fun y hy => h y (by simp [hy]))
    simp [hx, ht]
    ring

theorem centroid_length (pts : Mat) (D : ℕ) (c : List ℚ)
    (h : ∀ p ∈ pts, p.length = D) (hc : centroid pts = some c) :
    c.length = D := by
  cases pts with
  | nil => simp [centroid] at hc
  | cons p rest =>
    have hp : p.length = D := h p (by simp)
    have hrest : ∀ r ∈ rest, r.length = p.length := by
      intro r hr
      rw [hp]
      exact h r (by simp [hr])
    have hc2 : vecScale (((rest.length : ℚ) + 1)⁻¹) (rest.foldl vecAdd p) = c := by
      simpa [centroid] using hc
    rw [← hc2, vecScale_length, foldl_vecAdd_length rest p hrest, hp]

theorem centroid_of_constant (p : List ℚ) (rest : Mat) (h : ∀ r ∈ rest, r = p) :
    centroid (p :: rest) = some p := by
  have hlen : ∀ r ∈ rest, r.length = p.length := fun r hr => by rw [h r hr]
  rw [centroid]
  congr 1
  apply list_eq_of_getD
  · rw [vecScale_length, foldl_vecAdd_length rest p hlen]
  · intro i
    rw [vecScale_getD, foldl_vecAdd_getD rest p hlen i]
    have hconst : ∀ x ∈ rest.map (fun r => r.getD i 0), x = p.getD i 0 := by
      intro x hx
      obtain ⟨r, hr, hrx⟩ := List.mem_map.1 hx
      rw [← hrx, h r hr]
    rw [sum_const_list _ _ hconst, List.length_map]
    have hne : ((rest.length : ℚ) + 1) ≠ 0 := by positivity
    field_simp
    ring

theorem list_sum_nonneg (l : List ℚ) (h : ∀ x ∈ l, 0 ≤ x) : 0 ≤ l.sum := by
  induction l with
  | nil => simp
  | cons x t ih =>
    have hx : 0 ≤ x := h x (by simp)
    have ht : 0 ≤ t.sum := ih (fun y hy => h y (by simp [hy]))
    simp only [List.sum_cons]
    linarith

theorem list_sum_eq_zero_iff (l : List ℚ) (h : ∀ x ∈ l, 0 ≤ x) :
    l.sum = 0 ↔ ∀ x ∈ l, x = 0 := by
  induction l with
  | nil => simp
  | cons x t ih =>
    have hx : 0 ≤ x := h x (by simp)
    have ht : 0 ≤ t.sum := list_sum_nonneg t (fun y hy => h y (by simp [hy]))
    have iht := ih (fun y hy => h y (by simp [hy]))
    simp only [List.sum_cons, List.mem_cons]
    constructor
    · intro h0
      have hx0 : x = 0 := by linarith
      have ht0 : t.sum = 0 := by linarith
      intro y hy
      rcases hy with rfl | hy
      · exact hx0
      · exact iht.1 ht0 y hy
    · intro h0
      have hx0 : x = 0 := h0 x (Or.inl rfl)
      have ht0 : t.sum = 0 := iht.2 (fun y hy => h0 y (Or.inr hy))
      rw [hx0, ht0, add_zero]

theorem sqDiffSum_nonneg (p c : List ℚ) : 0 ≤ sqDiffSum p c := by
  induction p generalizing c with
  | nil => simp [sqDiffSum]
  | cons x xs ih =>
    cases c with
    | nil => simp [sqDiffSum]
    | cons y ys =>
      have h1 : (0 : ℚ) ≤ (x - y) ^ 2 := sq_nonneg _
      have h2 := ih ys
      simp only [sqDiffSum, List.zipWith_cons_cons, List.sum_cons] at h2 ⊢
      linarith

theorem sqDiffSum_eq_zero_iff (p c : List ℚ) (h : p.length = c.length) :
    sqDiffSum p c = 0 ↔ p = c := by
  induction p generalizing c with
  | nil =>
    cases c with
    | nil => simp [sqDiffSum]
    | cons y ys => simp at h
  | cons x xs ih =>
    cases c with
    | nil => simp at h
    | cons y ys =>
      have hlen : xs.length = ys.length := by simpa using h
      have h1 : (0 : ℚ) ≤ (x - y) ^ 2 := sq_nonneg _
      have h2 := sqDiffSum_nonneg xs ys
      simp only [sqDiffSum, List.zipWith_cons_cons, List.sum_cons]
      constructor
      · intro h0
        have hxy : (x - y) ^ 2 = 0 := by
          simp only [sqDiffSum] at h2
          linarith
        have hx : x = y := by
          have := (pow_eq_zero_iff two_ne_zero).mp hxy
          linarith [sub_eq_zero.1 this]
        have ht : sqDiffSum xs ys = 0 := by
          simp only [sqDiffSum] at h2 ⊢
          have : (x - y) ^ 2 = 0 := hxy
          simp only [sqDiffSum] at h0
          linarith
        have := (ih ys hlen).1 ht
        rw [hx, this]
      · intro h0
        have hx : x = y := (List.cons.injEq _ _ _ _ ▸ h0).1
        have ht : xs = ys := (List.cons.injEq _ _ _ _ ▸ h0).2
        have : sqDiffSum xs ys = 0 := (ih ys hlen).2 ht
        simp only [sqDiffSum] at this
        rw [hx, this, sub_self]
        simp

theorem clusterAdd_eq (X : Mat) (labels : List ℤ) (acc : ℚ) (l : ℤ)
    (h : clusterPoints X labels l ≠ []) :
    clusterAdd X labels acc l = some (acc + clusterTerm X labels l) := by
  rcases hc : centroid (clusterPoints X labels l) with _ | c
  · exact absurd ((centroid_eq_none _).1 hc) h
  · simp [clusterAdd, clusterTerm, hc]

theorem clusterAdd_none (X : Mat) (labels : List ℤ) (acc : ℚ) (l : ℤ)
    (h : clusterPoints X labels l = []) :
    clusterAdd X labels acc l = none := by
  have hc : centroid (clusterPoints X labels l) = none := (centroid_eq_none _).2 h
  simp [clusterAdd, hc]

theorem wcssLoop_eq_sum (X : Mat) (labels : List ℤ) (ls : List ℤ) (acc : ℚ)
    (h : ∀ l ∈ ls, clusterPoints X labels l ≠ []) :
    wcssLoop X labels ls acc = some (acc + (ls.map (clusterTerm X labels)).sum) := by
  induction ls generalizing acc with
  | nil => simp [wcssLoop]
  | cons l t ih =>
    have hl : clusterPoints X labels l ≠ [] := h l (by simp)
    have ht : ∀ x ∈ t, clusterPoints X labels x ≠ [] := fun x hx => h x (by simp [hx])
    simp only [wcssLoop, clusterAdd_eq X labels acc l hl,
      ih (acc + clusterTerm X labels l) ht]
    simp [add_assoc]

theorem wcssLoop_eq_none (X : Mat) (labels : List ℤ) (ls : List ℤ) (acc : ℚ)
    (h : ∃ l ∈ ls, clusterPoints X labels l = []) :
    wcssLoop X labels ls acc = none := by
  induction ls generalizing acc with
  | nil => simp at h
  | cons l t ih =>
    by_cases hl : clusterPoints X labels l = []
    · simp only [wcssLoop, clusterAdd_none X labels acc l hl]
    · obtain ⟨l2, hl2, hcp⟩ := h
      have hl2t : l2 ∈ t := by
        rcases List.mem_cons.1 hl2 with rfl | hm
        · exact absurd hcp hl
        · exact hm
      simp only [wcssLoop, clusterAdd_eq X labels acc l hl]
      exact ih _ ⟨l2, hl2t, hcp⟩

theorem wcssLoop_some_imp (X : Mat) (labels : List ℤ) (ls : List ℤ) (acc : ℚ) (w : ℚ)
    (h : wcssLoop X labels ls acc = some w) :
    ∀ l ∈ ls, clusterPoints X labels l ≠ [] := by
  intro l hl hcp
  rw [wcssLoop_eq_none X labels ls acc ⟨l, hl, hcp⟩] at h
  cases h

theorem clusterTerm_nonneg (X : Mat) (labels : List ℤ) (l : ℤ) :
    0 ≤ clusterTerm X labels l := by
  rcases hc : centroid (clusterPoints X labels l) with _ | c
  · simp [clusterTerm, hc]
  · simp only [clusterTerm, hc]
    apply list_sum_nonneg
    intro x hx
    obtain ⟨p, hp, rfl⟩ := List.mem_map.1 hx
    exact sqDiffSum_nonneg p c

theorem clusterTerm_eq_zero_iff (X : Mat) (labels : List ℤ) (l : ℤ) (D : ℕ)
    (hrect : ∀ p ∈ X, p.length = D)
    (hne : clusterPoints X labels l ≠ []) :
    clusterTerm X labels l = 0 ↔
      ∀ p ∈ clusterPoints X labels l, ∀ q ∈ clusterPoints X labels l, p = q := by
  have hmem : ∀ p ∈ clusterPoints X labels l, p.length = D :=
    fun p hp => hrect p (clusterPoints_subset X labels l p hp)
  rcases hc : centroid (clusterPoints X labels l) with _ | c
  · exact absurd ((centroid_eq_none _).1 hc) hne
  have hclen : c.length = D := centroid_length _ D c hmem hc
  simp only [clusterTerm, hc]
  have hnonneg : ∀ x ∈ (clusterPoints X labels l).map (fun p => sqDiffSum p c),
      0 ≤ x := by
    intro x hx
    obtain ⟨p, hp, rfl⟩ := List.mem_map.1 hx
    exact sqDiffSum_nonneg p c
  rw [list_sum_eq_zero_iff _ hnonneg]
  constructor
  · intro h p hp q hq
    have hp0 : sqDiffSum p c = 0 := h _ (List.mem_map_of_mem _ hp)
    have hq0 : sqDiffSum q c = 0 := h _ (List.mem_map_of_mem _ hq)
    have hpc : p = c := (sqDiffSum_eq_zero_iff p c (by rw [hmem p hp, hclen])).1 hp0
    have hqc : q = c := (sqDiffSum_eq_zero_iff q c (by rw [hmem q hq, hclen])).1 hq0
    rw [hpc, hqc]
  · intro h x hx
    obtain ⟨p, hp, rfl⟩ := List.mem_map.1 hx
    rcases hcp : clusterPoints X labels l with _ | ⟨p0, rest⟩
    · exact absurd hcp hne
    have hall : ∀ r ∈ rest, r = p0 := by
      intro r hr
      exact h r (by rw [hcp]; simp [hr]) p0 (by rw [hcp]; simp)
    have hc0 : centroid (clusterPoints X labels l) = some p0 := by
      rw [hcp]
      exact centroid_of_constant p0 rest hall
    have hcp0 : c = p0 := by
      rw [hc0] at hc
      injection hc with hv
      exact hv.symm
    have hpp0 : p = p0 := h p hp p0 (by rw [hcp]; simp)
    rw [hpp0, hcp0]
    exact (sqDiffSum_eq_zero_iff p0 p0 rfl).2 rfl

/-- C8.  For every non-empty label assignment over points of matching
length, `calculate_wcss` terminates normally with a value: the error
branch of its caller's try/except block is unreachable, because the loop
iterates over the distinct values actually present in `labels`, so every
selected cluster is non-empty and every centroid is defined. -/
theorem calculate_wcss_total (X : Mat) (labels : List ℤ)
    (hlen : labels.length = X.length) (hne : labels ≠ []) :
    ∃ w, calculate_wcss X labels = some w := by
  have h : ∀ l ∈ uniqueLabels labels, clusterPoints X labels l ≠ [] := by
    intro l hl
    exact clusterPoints_ne_nil X labels l (le_of_eq hlen)
      ((mem_uniqueLabels l labels).1 hl)
  rw [calculate_wcss]
  exact ⟨_, wcssLoop_eq_sum X labels (uniqueLabels labels) 0 h⟩

theorem calculate_wcss_total_witness :
    ([(0 : ℤ), 0].length = ([[(0 : ℚ)], [1]] : Mat).length ∧ [(0 : ℤ), 0] ≠ []) ∧
      ∃ w, calculate_wcss [[(0 : ℚ)], [1]] [0, 0] = some w :=
  ⟨⟨rfl, by decide⟩, calculate_wcss_total [[0], [1]] [0, 0] rfl (by decide)⟩

/-- C4.  Whenever `calculate_wcss` returns a value on a rectangular
dataset, that value is nonnegative, and it is zero exactly when every
cluster's member points are identical (in particular when every cluster
is a single point). -/
theorem calculate_wcss_nonneg_zero_iff (X : Mat) (labels : List ℤ) (D : ℕ) (w : ℚ)
    (hrect : ∀ p ∈ X, p.length = D)
    (hw : calculate_wcss X labels = some w) :
    0 ≤ w ∧ (w = 0 ↔ ∀ l ∈ labels, ∀ p ∈ clusterPoints X labels l,
      ∀ q ∈ clusterPoints X labels l, p = q) := by
  rw [calculate_wcss] at hw
  have hne : ∀ l ∈ uniqueLabels labels, clusterPoints X labels l ≠ [] :=
    wcssLoop_some_imp X labels (uniqueLabels labels) 0 w hw
  rw [wcssLoop_eq_sum X labels (uniqueLabels labels) 0 hne] at hw
  have hw2 : w = ((uniqueLabels labels).map (clusterTerm X labels)).sum := by
    injection hw with h2
    rw [← h2, zero_add]
  have hnn : ∀ x ∈ (uniqueLabels labels).map (clusterTerm X labels), 0 ≤ x := by
    intro x hx
    obtain ⟨l, hl, rfl⟩ := List.mem_map.1 hx
    exact clusterTerm_nonneg X labels l
  constructor
  · rw [hw2]
    exact list_sum_nonneg _ hnn
  · rw [hw2, list_sum_eq_zero_iff _ hnn]
    constructor
    · intro h l hl
      have hl2 : l ∈ uniqueLabels labels := (mem_uniqueLabels l labels).2 hl
      exact (clusterTerm_eq_zero_iff X labels l D hrect (hne l hl2)).1
        (h _ (List.mem_map_of_mem _ hl2))
    · intro h x hx
      obtain ⟨l, hl, rfl⟩ := List.mem_map.1 hx
      exact (clusterTerm_eq_zero_iff X labels l D hrect (hne l hl)).2
        (h l ((mem_uniqueLabels l labels).1 hl))

theorem calculate_wcss_nonneg_zero_iff_witness :
    ((∀ p ∈ ([[0], [1], [0]] : Mat), p.length = 1) ∧
      calculate_wcss [[0], [1], [0]] [0, 0, 1] = some (1/2)) ∧
      0 ≤ (1/2 : ℚ) ∧ ((1/2 : ℚ) = 0 ↔ ∀ l ∈ [(0 : ℤ), 0, 1],
        ∀ p ∈ clusterPoints [[0], [1], [0]] [0, 0, 1] l,
        ∀ q ∈ clusterPoints [[0], [1], [0]] [0, 0, 1] l, p = q) :=
  ⟨⟨by decide, by with_unfolding_all decide⟩,
    calculate_wcss_nonneg_zero_iff [[0], [1], [0]] [0, 0, 1] 1 (1/2)
      (by decide) (by with_unfolding_all decide)⟩

theorem clusterPoints_map (X : Mat) (labels : List ℤ) (l : ℤ) (f : ℤ → ℤ)
    (hf : Function.Injective f) :
    clusterPoints X (labels.map f) (f l) = clusterPoints X labels l := by
  rw [clusterPoints, clusterPoints, List.zip_map_right, List.filterMap_map]
  congr 1
  funext pr
  by_cases h : pr.2 = l
  · simp [Function.comp, Prod.map, h]
  · have h2 : ¬ f pr.2 = f l := fun he => h (hf he)
    simp [Function.comp, Prod.map, h, h2]

theorem clusterTerm_map (X : Mat) (labels : List ℤ) (l : ℤ) (f : ℤ → ℤ)
    (hf : Function.Injective f) :
    clusterTerm X (labels.map f) (f l) = clusterTerm X labels l := by
  simp only [clusterTerm, clusterPoints_map X labels l f hf]

theorem uniqueLabels_map_perm (labels : List ℤ) (f : ℤ → ℤ)
    (hf : Function.Injective f) :
    (uniqueLabels (labels.map f)).Perm ((uniqueLabels labels).map f) := by
  apply (List.perm_ext_iff_of_nodup (nodup_uniqueLabels _)
    ((nodup_uniqueLabels labels).map hf)).2
  intro a
  rw [mem_uniqueLabels]
  simp [List.mem_map, mem_uniqueLabels]

/-- C9.  WCSS is invariant under injective relabelling: it depends only on
the partition of the points that the labels induce, not on the particular
label identifiers. -/
theorem wcss_relabel (X : Mat) (labels : List ℤ) (f : ℤ → ℤ)
    (hf : Function.Injective f) :
    calculate_wcss X (labels.map f) = calculate_wcss X labels := by
  by_cases hcase : ∀ l ∈ uniqueLabels labels, clusterPoints X labels l ≠ []
  · have hmap : ∀ x ∈ uniqueLabels (labels.map f),
        clusterPoints X (labels.map f) x ≠ [] := by
      intro x hx
      obtain ⟨l, hl, rfl⟩ : ∃ l ∈ labels, f l = x := by
        have := (mem_uniqueLabels x (labels.map f)).1 hx
        simpa [List.mem_map] using this
      rw [clusterPoints_map X labels l f hf]
      exact hcase l ((mem_uniqueLabels l labels).2 hl)
    rw [calculate_wcss, calculate_wcss,
      wcssLoop_eq_sum X (labels.map f) _ 0 hmap,
      wcssLoop_eq_sum X labels _ 0 hcase]
    have hperm := (uniqueLabels_map_perm labels f hf).map
      (clusterTerm X (labels.map f))
    have h1 : ((uniqueLabels (labels.map f)).map (clusterTerm X (labels.map f))).sum
        = (((uniqueLabels labels).map f).map (clusterTerm X (labels.map f))).sum :=
      hperm.sum_eq
    have h2 : ((uniqueLabels labels).map f).map (clusterTerm X (labels.map f))
        = (uniqueLabels labels).map (clusterTerm X labels) := by
      rw [List.map_map]
      apply List.map_congr_left
      intro l hl
      exact clusterTerm_map X labels l f hf
    rw [h1, h2]
  · push_neg at hcase
    obtain ⟨l, hl, hcp⟩ := hcase
    have hfl : f l ∈ uniqueLabels (labels.map f) := by
      rw [mem_uniqueLabels]
      exact List.mem_map_of_mem f ((mem_uniqueLabels l labels).1 hl)
    have hfcp : clusterPoints X (labels.map f) (f l) = [] := by
      rw [clusterPoints_map X labels l f hf]
      exact hcp
    rw [calculate_wcss, calculate_wcss,
      wcssLoop_eq_none X labels _ 0 ⟨l, hl, hcp⟩,
      wcssLoop_eq_none X (labels.map f) _ 0 ⟨f l, hfl, hfcp⟩]

theorem wcss_relabel_witness :
    Function.Injective (fun z : ℤ => z + 1) ∧
      calculate_wcss [[(0 : ℚ)], [1], [0]]
          ([(0 : ℤ), 0, 1].map (fun z : ℤ => z + 1)) =
        calculate_wcss [[(0 : ℚ)], [1], [0]] [(0 : ℤ), 0, 1] :=
  ⟨add_left_injective 1,
    wcss_relabel [[0], [1], [0]] [0, 0, 1] (fun z => z + 1) (add_left_injective 1)⟩

theorem tryOpt_fst (o : Option ℚ) (s : String) (k : ℕ) : (tryOpt o s k).1 = o := by
  cases o <;> rfl

theorem sweepLoop_map_eq (E : Externals) (g : List (List ℕ)) (S : Mat)
    (ks : List ℕ) (lab : ℕ → List ℤ)
    (hfit : ∀ k ∈ ks, E.fit_predict g "euclidean" "ward" S k = Except.ok (lab k)) :
    sweepLoop E g S ks = Except.ok
      ⟨ks.map (fun k => calculate_wcss S (lab k)),
        ks.map (fun k => exceptToOption (E.silhouette_score S (lab k))),
        ks.map (fun k => exceptToOption (E.calinski_harabasz_score S (lab k))),
        ks.map (fun k => exceptToOption (E.davies_bouldin_score S (lab k))),
        (ks.map (fun k => diagsFor E S (lab k) k)).flatten⟩ := by
  induction ks with
  | nil => simp [sweepLoop]
  | cons k t ih =>
    have hk := hfit k (by simp)
    have ht := ih (fun x hx => hfit x (by simp [hx]))
    simp only [sweepLoop, sweepStep, hk, ht, tryOpt_fst, List.map_cons, List.flatten_cons]

/-- C2.  When the graph construction and every per-count clustering call
succeed, each of the four per-count metric computations contributes
independently: entry `j` of each result sequence is exactly the caught
outcome (value, or NaN sentinel `none` on any exception) of that one
metric on the labels of the `j`-th swept count, and the diagnostic stream
is the concatenation of the per-count diagnostics, each naming the failed
metric and its count — so one metric's failure affects neither the other
three metrics at that count nor any entry at any other count. -/
theorem compute_metrics_metric_isolation (E : Externals) (df : Mat)
    (g : List (List ℕ)) (lab : ℕ → List ℤ) (ks : List ℕ)
    (hg : kneighbors_graph df 10 = Except.ok g)
    (hfit : ∀ k ∈ ks, E.fit_predict g "euclidean" "ward" (E.standardize df) k
      = Except.ok (lab k)) :
    compute_metrics E df ks = Except.ok
      ⟨ks.map (fun k => calculate_wcss (E.standardize df) (lab k)),
        ks.map (fun k => exceptToOption (E.silhouette_score (E.standardize df) (lab k))),
        ks.map (fun k => exceptToOption (E.calinski_harabasz_score (E.standardize df) (lab k))),
        ks.map (fun k => exceptToOption (E.davies_bouldin_score (E.standardize df) (lab k))),
        (ks.map (fun k => diagsFor E (E.standardize df) (lab k) k)).flatten⟩ := by
  simp only [compute_metrics, hg]
  exact sweepLoop_map_eq E g (E.standardize df) ks lab hfit

theorem compute_metrics_metric_isolation_witness :
    (kneighbors_graph dfBig 10 = Except.ok (knnGraph dfBig 10) ∧
      ∀ k ∈ [1, 2], mockExternals.fit_predict (knnGraph dfBig 10) "euclidean" "ward"
        (mockExternals.standardize dfBig) k = Except.ok (mockLab k)) ∧
      compute_metrics mockExternals dfBig [1, 2] = Except.ok
        ⟨[1, 2].map (fun k => calculate_wcss (mockExternals.standardize dfBig) (mockLab k)),
          [1, 2].map (fun k =>
            exceptToOption (mockExternals.silhouette_score (mockExternals.standardize dfBig) (mockLab k))),
          [1, 2].map (fun k =>
            exceptToOption (mockExternals.calinski_harabasz_score (mockExternals.standardize dfBig) (mockLab k))),
          [1, 2].map (fun k =>
            exceptToOption (mockExternals.davies_bouldin_score (mockExternals.standardize dfBig) (mockLab k))),
          ([1, 2].map (fun k =>
            diagsFor mockExternals (mockExternals.standardize dfBig) (mockLab k) k)).flatten⟩ :=
  ⟨⟨rfl, by decide⟩,
    compute_metrics_metric_isolation mockExternals dfBig (knnGraph dfBig 10) mockLab
      [1, 2] rfl (by decide)⟩

theorem sweepLoop_lengths (E : Externals) (g : List (List ℕ)) (S : Mat)
    (ks : List ℕ) (r : SweepResult) (h : sweepLoop E g S ks = Except.ok r) :
    r.wcss.length = ks.length ∧ r.silhouette_scores.length = ks.length ∧
      r.calinski_harabasz_scores.length = ks.length ∧
      r.davies_bouldin_scores.length = ks.length := by
  induction ks generalizing r with
  | nil =>
    simp only [sweepLoop] at h
    injection h with h2
    rw [← h2]
    simp
  | cons k t ih =>
    rw [sweepLoop] at h
    cases hstep : sweepStep E g S k with
    | error e =>
      simp only [hstep] at h
      cases h
    | ok row =>
      simp only [hstep] at h
      cases hrest : sweepLoop E g S t with
      | error e =>
        simp only [hrest] at h
        cases h
      | ok rest =>
        simp only [hrest] at h
        obtain ⟨l1, l2, l3, l4⟩ := ih rest hrest
        injection h with h2
        rw [← h2]
        simp [l1, l2, l3, l4]

theorem sweepLoop_align (E : Externals) (g : List (List ℕ)) (S : Mat)
    (ks : List ℕ) (r : SweepResult) (h : sweepLoop E g S ks = Except.ok r)
    (j : ℕ) (hj : j < ks.length) :
    ∃ labels, E.fit_predict g "euclidean" "ward" S (ks.getD j 0) = Except.ok labels ∧
      r.wcss.get? j = some (calculate_wcss S labels) ∧
      r.silhouette_scores.get? j = some (exceptToOption (E.silhouette_score S labels)) ∧
      r.calinski_harabasz_scores.get? j =
        some (exceptToOption (E.calinski_harabasz_score S labels)) ∧
      r.davies_bouldin_scores.get? j =
        some (exceptToOption (E.davies_bouldin_score S labels)) := by
  induction ks generalizing r j with
  | nil => simp at hj
  | cons k t ih =>
    rw [sweepLoop] at h
    cases hstep : sweepStep E g S k with
    | error e =>
      simp only [hstep] at h
      cases h
    | ok row =>
      simp only [hstep] at h
      cases hrest : sweepLoop E g S t with
      | error e =>
        simp only [hrest] at h
        cases h
      | ok rest =>
        simp only [hrest] at h
        injection h with h2
        subst h2
        rw [sweepStep] at hstep
        cases hfit2 : E.fit_predict g "euclidean" "ward" S k with
        | error e =>
          simp only [hfit2] at hstep
          cases hstep
        | ok labels =>
          simp only [hfit2] at hstep
          injection hstep with h3
          cases j with
          | zero =>
            refine ⟨labels, by simpa using hfit2, ?_, ?_, ?_, ?_⟩ <;>
              rw [← h3] <;> simp [tryOpt_fst]
          | succ j2 =>
            have hj2 : j2 < t.length := by simpa using hj
            obtain ⟨labels2, hf, e1, e2, e3, e4⟩ := ih rest hrest j2 hj2
            exact ⟨labels2, by simpa using hf, by simpa using e1, by simpa using e2,
              by simpa using e3, by simpa using e4⟩

/-- C3.  Whenever `compute_metrics` returns, it returns exactly four
sequences whose lengths all equal the number of swept counts, and entry
`j` of every sequence is the metric outcome computed from the labels of
the `j`-th caller-supplied count, in the caller-supplied order (never
re-sorted, never omitted), regardless of how many individual metric
computations failed (failed entries are present as the `none` sentinel). -/
theorem compute_metrics_alignment (E : Externals) (df : Mat) (ks : List ℕ)
    (r : SweepResult) (h : compute_metrics E df ks = Except.ok r) :
    r.wcss.length = ks.length ∧ r.silhouette_scores.length = ks.length ∧
      r.calinski_harabasz_scores.length = ks.length ∧
      r.davies_bouldin_scores.length = ks.length ∧
      ∀ j, j < ks.length → ∃ g labels,
        kneighbors_graph df 10 = Except.ok g ∧
        E.fit_predict g "euclidean" "ward" (E.standardize df) (ks.getD j 0) =
          Except.ok labels ∧
        r.wcss.get? j = some (calculate_wcss (E.standardize df) labels) ∧
        r.silhouette_scores.get? j =
          some (exceptToOption (E.silhouette_score (E.standardize df) labels)) ∧
        r.calinski_harabasz_scores.get? j =
          some (exceptToOption (E.calinski_harabasz_score (E.standardize df) labels)) ∧
        r.davies_bouldin_scores.get? j =
          some (exceptToOption (E.davies_bouldin_score (E.standardize df) labels)) := by
  rw [compute_metrics] at h
  cases hkg : kneighbors_graph df 10 with
  | error e =>
    simp only [hkg] at h
    cases h
  | ok g =>
    simp only [hkg] at h
    obtain ⟨l1, l2, l3, l4⟩ := sweepLoop_lengths E g (E.standardize df) ks r h
    refine ⟨l1, l2, l3, l4, ?_⟩
    intro j hj
    obtain ⟨labels, hf, e1, e2, e3, e4⟩ :=
      sweepLoop_align E g (E.standardize df) ks r h j hj
    exact ⟨g, labels, rfl, hf, e1, e2, e3, e4⟩

theorem compute_metrics_alignment_witness :
    compute_metrics mockExternals dfBig [5, 2, 8] = Except.ok
        ⟨[some 0, some 0, some 0], [some 1, some 1, some 1],
          [some 1, some 1, some 1], [some 1, some 1, some 1], []⟩ ∧
      (([some (0 : ℚ), some 0, some 0] : List (Option ℚ)).length = [5, 2, 8].length ∧
        ([some (1 : ℚ), some 1, some 1] : List (Option ℚ)).length = [5, 2, 8].length ∧
        ([some (1 : ℚ), some 1, some 1] : List (Option ℚ)).length = [5, 2, 8].length ∧
        ([some (1 : ℚ), some 1, some 1] : List (Option ℚ)).length = [5, 2, 8].length ∧
        ∀ j, j < [5, 2, 8].length → ∃ g labels,
          kneighbors_graph dfBig 10 = Except.ok g ∧
          mockExternals.fit_predict g "euclidean" "ward"
            (mockExternals.standardize dfBig) ([5, 2, 8].getD j 0) = Except.ok labels ∧
          [some (0 : ℚ), some 0, some 0].get? j =
            some (calculate_wcss (mockExternals.standardize dfBig) labels) ∧
          [some (1 : ℚ), some 1, some 1].get? j =
            some (exceptToOption (mockExternals.silhouette_score
              (mockExternals.standardize dfBig) labels)) ∧
          [some (1 : ℚ), some 1, some 1].get? j =
            some (exceptToOption (mockExternals.calinski_harabasz_score
              (mockExternals.standardize dfBig) labels)) ∧
          [some (1 : ℚ), some 1, some 1].get? j =
            some (exceptToOption (mockExternals.davies_bouldin_score
              (mockExternals.standardize dfBig) labels))) :=
  ⟨by with_unfolding_all decide,
    compute_metrics_alignment mockExternals dfBig [5, 2, 8]
      ⟨[some 0, some 0, some 0], [some 1, some 1, some 1],
        [some 1, some 1, some 1], [some 1, some 1, some 1], []⟩
      (by with_unfolding_all decide)⟩

theorem sweepLoop_fail (E : Externals) (g : List (List ℕ)) (S : Mat)
    (ks1 : List ℕ) (k0 : ℕ) (ks2 : List ℕ) (lab : ℕ → List ℤ) (e : PyErr)
    (hok : ∀ k ∈ ks1, E.fit_predict g "euclidean" "ward" S k = Except.ok (lab k))
    (hfail : E.fit_predict g "euclidean" "ward" S k0 = Except.error e) :
    sweepLoop E g S (ks1 ++ k0 :: ks2) = Except.error e := by
  induction ks1 with
  | nil => simp only [List.nil_append, sweepLoop, sweepStep, hfail]
  | cons a t ih =>
    have ha := hok a (by simp)
    have ht := ih (fun x hx => hok x (by simp [hx]))
    simp only [List.cons_append, sweepLoop, sweepStep, ha, List.append_eq, ht]

/-- C1 counterexample.  A structural clustering failure at one particular
swept count (here the clusterer of `failExternals` raises at count 3,
while connectivity construction succeeded on the 11-sample dataset and
the clusterer succeeds at count 2) is NOT recovered at the per-count
level: `compute_metrics` returns no result sequences at all but aborts
with the propagated error, and that error is not `InsufficientSamples` —
refuting the claim that only `InsufficientSamples` aborts the whole
sweep. -/
theorem sweep_aborts_on_cluster_failure :
    compute_metrics failExternals dfBig [2, 3, 4] = Except.error PyErr.clusterFailure ∧
      PyErr.clusterFailure ≠ PyErr.insufficientSamples := by
  constructor
  · with_unfolding_all rfl
  · decide

/-- C1 amended.  Per-count recovery holds only for the four metric
computations; a failure of the clustering step itself for some count
propagates out of `compute_metrics` and aborts the whole sweep (no result
sequences), exactly like `InsufficientSamples`: if every count before
`k0` clusters successfully and clustering raises `e` at `k0`, the sweep
returns that error. -/
theorem cluster_failure_propagates (E : Externals) (df : Mat) (g : List (List ℕ))
    (lab : ℕ → List ℤ) (ks1 : List ℕ) (k0 : ℕ) (ks2 : List ℕ) (e : PyErr)
    (hg : kneighbors_graph df 10 = Except.ok g)
    (hok : ∀ k ∈ ks1, E.fit_predict g "euclidean" "ward" (E.standardize df) k =
      Except.ok (lab k))
    (hfail : E.fit_predict g "euclidean" "ward" (E.standardize df) k0 =
      Except.error e) :
    compute_metrics E df (ks1 ++ k0 :: ks2) = Except.error e := by
  simp only [compute_metrics, hg]
  exact sweepLoop_fail E g (E.standardize df) ks1 k0 ks2 lab e hok hfail

theorem cluster_failure_propagates_witness :
    (kneighbors_graph dfBig 10 = Except.ok (knnGraph dfBig 10) ∧
      (∀ k ∈ [2], failExternals.fit_predict (knnGraph dfBig 10) "euclidean" "ward"
        (failExternals.standardize dfBig) k = Except.ok (mockLab k)) ∧
      failExternals.fit_predict (knnGraph dfBig 10) "euclidean" "ward"
        (failExternals.standardize dfBig) 3 = Except.error PyErr.clusterFailure) ∧
      compute_metrics failExternals dfBig ([2] ++ 3 :: [4]) =
        Except.error PyErr.clusterFailure :=
  ⟨⟨rfl, by decide, rfl⟩,
    cluster_failure_propagates failExternals dfBig (knnGraph dfBig 10) mockLab
      [2] 3 [4] PyErr.clusterFailure rfl (by decide) rfl⟩

/-- C5.  For every dataset with fewer samples than the fixed neighbor
count 10, the sweep fails with `InsufficientSamples` during connectivity
construction, for every choice of external primitives and every swept
range — so no clustering call can influence the outcome and no result
sequences are produced. -/
theorem insufficient_samples_fatal (E : Externals) (df : Mat) (ks : List ℕ)
    (h : df.length < 10) :
    compute_metrics E df ks = Except.error PyErr.insufficientSamples := by
  have hng : ¬ 10 < df.length := by omega
  simp only [compute_metrics, kneighbors_graph, if_neg hng]

theorem insufficient_samples_fatal_witness :
    dfSmall.length < 10 ∧
      compute_metrics mockExternals dfSmall [2, 3] =
        Except.error PyErr.insufficientSamples :=
  ⟨by decide, insufficient_samples_fatal mockExternals dfSmall [2, 3] (by decide)⟩

/-- C6.  In every sweep over a dataset with more than 10 samples, the
connectivity constraint is the one graph `knnGraph df 10` built from the
UNstandardized input (each sample's 10 nearest neighbors by Euclidean
distance, self excluded), the input is standardized once
(`E.standardize df`), and every per-count iteration is the same step
function sharing those two read-only values, each of whose clustering
calls passes the Euclidean metric and Ward linkage with the standardized
matrix. -/
theorem connectivity_shared_once (E : Externals) (df : Mat) (ks : List ℕ)
    (h : 10 < df.length) :
    compute_metrics E df ks = sweepLoop E (knnGraph df 10) (E.standardize df) ks ∧
      ∀ k, sweepStep E (knnGraph df 10) (E.standardize df) k =
        match E.fit_predict (knnGraph df 10) "euclidean" "ward" (E.standardize df) k with
        | Except.error e => Except.error e
        | Except.ok labels => Except.ok
            ⟨calculate_wcss (E.standardize df) labels,
              exceptToOption (E.silhouette_score (E.standardize df) labels),
              exceptToOption (E.calinski_harabasz_score (E.standardize df) labels),
              exceptToOption (E.davies_bouldin_score (E.standardize df) labels),
              diagsFor E (E.standardize df) labels k⟩ := by
  constructor
  · simp only [compute_metrics, kneighbors_graph, if_pos h]
  · intro k
    rw [sweepStep]
    cases hf : E.fit_predict (knnGraph df 10) "euclidean" "ward" (E.standardize df) k with
    | error e => simp only [hf]
    | ok labels => simp only [hf, tryOpt_fst]

theorem connectivity_shared_once_witness :
    10 < dfBig.length ∧
      (compute_metrics mockExternals dfBig [2, 3] =
          sweepLoop mockExternals (knnGraph dfBig 10)
            (mockExternals.standardize dfBig) [2, 3] ∧
        ∀ k, sweepStep mockExternals (knnGraph dfBig 10)
            (mockExternals.standardize dfBig) k =
          match mockExternals.fit_predict (knnGraph dfBig 10) "euclidean" "ward"
              (mockExternals.standardize dfBig) k with
          | Except.error e => Except.error e
          | Except.ok labels => Except.ok
              ⟨calculate_wcss (mockExternals.standardize dfBig) labels,
                exceptToOption (mockExternals.silhouette_score
                  (mockExternals.standardize dfBig) labels),
                exceptToOption (mockExternals.calinski_harabasz_score
                  (mockExternals.standardize dfBig) labels),
                exceptToOption (mockExternals.davies_bouldin_score
                  (mockExternals.standardize dfBig) labels),
                diagsFor mockExternals (mockExternals.standardize dfBig) labels k⟩) :=
  ⟨by decide, connectivity_shared_once mockExternals dfBig [2, 3] (by decide)⟩

/-- C7.  When the caller supplies no range, `compute_metrics` sweeps the
source default `range(2, 10)`, i.e. the counts 2 through 9 inclusive —
eight candidate counts, as the explicit list confirms. -/
theorem default_cluster_range (E : Externals) (df : Mat) :
    pythonRange 2 10 = [2, 3, 4, 5, 6, 7, 8, 9] ∧
      compute_metricsDefault E df = compute_metrics E df [2, 3, 4, 5, 6, 7, 8, 9] :=
  ⟨rfl, rfl⟩
